import Mathlib

/-! Mandelbrot viewer: range estimator, camera input mapper, shader loading.

A shallow embedding of three parts of the viewer:

* `findRanges` (`src/main.cpp`, lines 216-241), the range estimator that picks four
  breakpoints out of the sorted depth samples;
* `processInput` (`src/main.cpp`, lines 168-207), the per-tick camera update;
* `Shader::readShaderFile`, `Shader::addShader` and the `Shader` constructor
  (`src/shader.cpp`, lines 4-69).

Conventions of the embedding.

* `float` samples and camera fields are exact rationals (`ℚ`): a linear order without
  NaN, with exact arithmetic.
* `int` is a 32-bit two's complement integer.  A value is carried as an `Int`; every
  signed arithmetic result goes through `checked`, which reports `Fault.intOverflow`
  outside `[INT_MIN, INT_MAX]` (signed overflow is undefined behaviour in C++), and
  the narrowing `int size = copy.size()` wraps modulo `2^32` (`sizeToInt`).
* `copy[i]` on a `std::vector` is `readAt`: an index outside `[0, size)` is
  `Fault.outOfBounds` (undefined behaviour in C++).
* `std::sort` on a linear order is determined by its contract (the sorted permutation
  of its input, `sortedCopy_unique`); it is embedded as `List.insertionSort`.
* The four arguments of the returned `glm::vec4` are evaluated left to right; C++ leaves
  the order open, which can only change which fault is met first, never a returned tuple.
* `std::cout`, the file system and the OpenGL driver are explicit state: a list of
  emitted messages, a function from paths to file contents, and a trace of GL calls.
-/

set_option linter.dupNamespace false

/-! ## Range estimator -/

/-- The ways an evaluation of the embedding can end without a value: the two kinds of
undefined behaviour the code can meet, and the exhaustion of the loop bound of `skipZeros`
(which `findRanges` never meets, see `skipZeros_total`). -/
inductive Fault where
  | outOfBounds
  | intOverflow
  | outOfFuel
  deriving DecidableEq, Repr

instance instDecidableEqExcept {ε α : Type} [DecidableEq ε] [DecidableEq α] :
    DecidableEq (Except ε α)
  | .ok a, .ok b =>
    if h : a = b then isTrue (by rw [h]) else isFalse (by intro e; cases e; exact h rfl)
  | .error a, .error b =>
    if h : a = b then isTrue (by rw [h]) else isFalse (by intro e; cases e; exact h rfl)
  | .ok _, .error _ => isFalse (by intro e; cases e)
  | .error _, .ok _ => isFalse (by intro e; cases e)

/-- The `glm::vec4` returned by `findRanges`: components `x, y, z, w` hold `r0, r1, r2, r3`. -/
structure Vec4 where
  x : ℚ
  y : ℚ
  z : ℚ
  w : ℚ
  deriving DecidableEq

/-- Largest value of a 32-bit `int`. -/
def INT_MAX : Int := 2147483647

/-- Smallest value of a 32-bit `int`. -/
def INT_MIN : Int := -2147483648

/-- The narrowing conversion of `int size = copy.size()`: the value modulo `2^32`, read as a
signed 32-bit integer. -/
def sizeToInt (n : Nat) : Int := ((n : Int) + 2147483648) % 4294967296 - 2147483648

/-- The result of a signed `int` operation: the mathematical value when it is representable,
a fault otherwise. -/
def checked (x : Int) : Except Fault Int :=
  if INT_MIN ≤ x ∧ x ≤ INT_MAX then .ok x else .error .intOverflow

/-- The read `copy[i]` for an `int` index `i`. -/
def readAt (copy : List ℚ) (i : Int) : Except Fault ℚ :=
  if 0 ≤ i then
    match copy[i.toNat]? with
    | some v => .ok v
    | none => .error .outOfBounds
  else .error .outOfBounds

/-- The loop `while (lowest < size && copy[lowest] == 0.0f) ++lowest;` started at `lowest`,
with a bound on the number of times its condition is evaluated. -/
def skipZeros (copy : List ℚ) (size : Int) : Nat → Int → Except Fault Int
  | 0, _ => .error .outOfFuel
  | fuel + 1, lowest =>
    if lowest < size then do
      let v ← readAt copy lowest
      if v = 0 then do
        let next ← checked (lowest + 1)
        skipZeros copy size fuel next
      else pure lowest
    else pure lowest

/-- The index expression `lowest + length * num / den - 1` in `int` arithmetic (`/` truncates
towards zero). -/
def quantileIndex (lowest length num den : Int) : Except Fault Int := do
  let scaled ← checked (length * num)
  let offset ← checked (lowest + scaled.tdiv den)
  checked (offset - 1)

/-- The two statements `std::vector<float> copy = data; std::sort(copy.begin(), copy.end());`:
the samples in ascending order. -/
def sortedCopy (data : List ℚ) : List ℚ := data.insertionSort (· ≤ ·)

/-- The function `findRanges` of `src/main.cpp`. -/
def findRanges (data : List ℚ) : Except Fault Vec4 := do
  let copy := sortedCopy data
  let size := sizeToInt copy.length
  let lowest ← skipZeros copy size (copy.length + 1) 0
  if lowest ≥ size then
    pure ⟨0, 0, 0, 1⟩
  else do
    let length ← checked (size - lowest)
    let r0 ← readAt copy lowest
    let i1 ← quantileIndex lowest length 3 4
    let r1 ← readAt copy i1
    let i2 ← quantileIndex lowest length 7 8
    let r2 ← readAt copy i2
    let last ← checked (size - 1)
    let r3 ← readAt copy last
    pure ⟨r0, r1, r2, r3⟩

/-- The ordering `r0 ≤ r1 ≤ r2 ≤ r3` the specification asks of a `ColorRanges` tuple. -/
def Vec4.Ordered (v : Vec4) : Prop := v.x ≤ v.y ∧ v.y ≤ v.z ∧ v.z ≤ v.w

instance instDecidableOrdered (v : Vec4) : Decidable v.Ordered := by
  unfold Vec4.Ordered
  infer_instance

/-- The first index of a sample list that holds a nonzero value (the length when there is
none): the `lowest` of the specification. -/
def firstNonzero (s : List ℚ) : Nat := s.findIdx (fun v => decide (v ≠ 0))

/-- The value of a sorted sample list at an integer position, when there is one. -/
def valueAt (s : List ℚ) (i : Int) : Option ℚ :=
  if 0 ≤ i then s[i.toNat]? else none

/-- The estimator as the specification words it (section 4.2): sort ascending, let `lowest`
be the first index holding a nonzero value, return `(0, 0, 0, 1)` when every sample is zero,
and otherwise the values at `lowest`, `lowest + floor(length * 3/4) - 1`,
`lowest + floor(length * 7/8) - 1` and the last index, with `length = total - lowest`. -/
def specRanges (samples : List ℚ) : Option Vec4 :=
  let s := sortedCopy samples
  let lowest : Nat := firstNonzero s
  if s.all (fun v => decide (v = 0)) then some ⟨0, 0, 0, 1⟩
  else do
    let length : Nat := s.length - lowest
    let r0 ← valueAt s lowest
    let r1 ← valueAt s ((lowest : Int) + ⌊(length : ℚ) * 3 / 4⌋ - 1)
    let r2 ← valueAt s ((lowest : Int) + ⌊(length : ℚ) * 7 / 8⌋ - 1)
    let r3 ← valueAt s ((s.length : Int) - 1)
    pure ⟨r0, r1, r2, r3⟩

/-- A sample array of `2^31` elements, one more than a 32-bit `int` can count, every
sample equal to `2`. -/
def oversizedSamples : List ℚ := List.replicate 2147483648 2

/-- A sample array of `306783379` elements, the smallest size whose product with `7`
exceeds `INT_MAX`, every sample equal to `1`. -/
def overflowingSamples : List ℚ := List.replicate 306783379 1

/-! ## Camera state and input mapper -/

/-- The global `camera` of `src/main.cpp` with its default member initialisers. -/
structure CameraState where
  center_x : ℚ := 0
  center_y : ℚ := 0
  zoom : ℚ := 4

/-- The keys polled by `processInput`: a field is `true` when `glfwGetKey` reports
`GLFW_PRESS` for that key during the tick. -/
structure Keys where
  escape : Bool := false
  w : Bool := false
  s : Bool := false
  a : Bool := false
  d : Bool := false
  left_shift : Bool := false
  left_control : Bool := false

/-- The state `processInput` acts on: the camera and the window's should-close flag. -/
structure App where
  camera : CameraState := {}
  shouldClose : Bool := false

/-- The local `move_speed` of `processInput`: `0.005 * camera.zoom`. -/
def moveSpeed (camera : CameraState) : ℚ := 5 / 1000 * camera.zoom

/-- The function `processInput` of `src/main.cpp`: the seven `if` statements in source
order, `move_speed` computed once from the zoom on entry. -/
def processInput (keys : Keys) (app : App) : App :=
  let shouldClose := if keys.escape then true else app.shouldClose
  let camera := app.camera
  let move_speed : ℚ := moveSpeed camera
  let camera := if keys.w then
    { camera with center_y := min (camera.center_y + move_speed) 1 } else camera
  let camera := if keys.s then
    { camera with center_y := max (camera.center_y - move_speed) (-1) } else camera
  let camera := if keys.a then
    { camera with center_x := max (camera.center_x - move_speed) (-1) } else camera
  let camera := if keys.d then
    { camera with center_x := min (camera.center_x + move_speed) 1 } else camera
  let camera := if keys.left_shift then
    { camera with zoom := min (camera.zoom * (102 / 100)) 1 } else camera
  let camera := if keys.left_control then
    { camera with zoom := max (camera.zoom * (98 / 100)) (1 / 100000) } else camera
  { camera := camera, shouldClose := shouldClose }

/-- The camera and window flag at program start. -/
def initialApp : App := {}

/-- A finite sequence of `processInput` ticks, one per element of `ticks`, oldest first. -/
def runTicks (ticks : List Keys) (app : App) : App :=
  ticks.foldl (fun st keys => processInput keys st) app

/-- The invariant the specification gives for `CameraState`. -/
def CameraInvariant (c : CameraState) : Prop :=
  0 < c.zoom ∧ (-1 ≤ c.center_x ∧ c.center_x ≤ 1) ∧ (-1 ≤ c.center_y ∧ c.center_y ≤ 1)

/-- The zoom interval `[1e-5, 1.0]`. -/
def ZoomInRange (c : CameraState) : Prop :=
  1 / 100000 ≤ c.zoom ∧ c.zoom ≤ 1

instance instDecidableCameraInvariant (c : CameraState) : Decidable (CameraInvariant c) := by
  unfold CameraInvariant
  infer_instance

instance instDecidableZoomInRange (c : CameraState) : Decidable (ZoomInRange c) := by
  unfold ZoomInRange
  infer_instance

/-! ## Shader loading -/

/-- The two shader stages the constructor loads. -/
inductive ShaderType where
  | GL_VERTEX_SHADER
  | GL_FRAGMENT_SHADER
  deriving DecidableEq, Repr

/-- The OpenGL calls made while a `Shader` is constructed, with their arguments. -/
inductive GLCall where
  | glCreateProgram (program : Nat)
  | glCreateShader (type : ShaderType) (shader : Nat)
  | glShaderSource (shader : Nat) (code : String)
  | glCompileShader (shader : Nat)
  | glAttachShader (program shader : Nat)
  | glDeleteShader (shader : Nat)
  | glLinkProgram (program : Nat)
  deriving DecidableEq, Repr

/-- The collaborators outside the program: the file system seen through `std::ifstream`
(`none` when `is_open()` is false) and the driver's answers to the status queries. -/
structure Driver where
  openFile : String → Option String
  compileStatus : String → Bool
  shaderInfoLog : String → String
  linkStatus : List GLCall → Bool
  programInfoLog : List GLCall → String

/-- The observable state: the messages written to `std::cout`, the GL calls made so far,
and the next object name the driver hands out. -/
structure World where
  cout : List String := []
  calls : List GLCall := []
  nextName : Nat := 1
  deriving DecidableEq, Repr

/-- The class `Shader`: its only data member. -/
structure Shader where
  program_ID : Nat
  deriving DecidableEq, Repr

/-- The method `Shader::readShaderFile`: the text of the file, or a message and the empty string
when the file cannot be opened. -/
def Shader.readShaderFile (p : Driver) (file_path : String) (w : World) : String × World :=
  match p.openFile file_path with
  | none => ("", { w with cout := w.cout ++ ["Failed to open shader file: " ++ file_path ++ "\n"] })
  | some text => (text, w)

/-- The method `Shader::addShader`. -/
def Shader.addShader (p : Driver) (program : Nat) (shader_path : String)
    (shader_type : ShaderType) (w : World) : World :=
  let (shader_code, w) := Shader.readShaderFile p shader_path w
  if shader_code.isEmpty then w
  else
    let shader := w.nextName
    let w := { w with calls := w.calls ++ [GLCall.glCreateShader shader_type shader],
                      nextName := w.nextName + 1 }
    let w := { w with calls := w.calls ++ [GLCall.glShaderSource shader shader_code] }
    let w := { w with calls := w.calls ++ [GLCall.glCompileShader shader] }
    let w := if p.compileStatus shader_code then w else
      { w with cout := w.cout ++ ["Error compiling shader at " ++ shader_path ++ ":\n"
                                    ++ p.shaderInfoLog shader_code ++ "\n"] }
    let w := { w with calls := w.calls ++ [GLCall.glAttachShader program shader] }
    { w with calls := w.calls ++ [GLCall.glDeleteShader shader] }

/-- The constructor `Shader::Shader`. -/
def Shader.Shader (p : Driver) (vertex_shader_path fragment_shader_path : String)
    (w : World) : Shader × World :=
  let program_ID := w.nextName
  let w := { w with calls := w.calls ++ [GLCall.glCreateProgram program_ID],
                    nextName := w.nextName + 1 }
  let w := Shader.addShader p program_ID vertex_shader_path .GL_VERTEX_SHADER w
  let w := Shader.addShader p program_ID fragment_shader_path .GL_FRAGMENT_SHADER w
  let w := { w with calls := w.calls ++ [GLCall.glLinkProgram program_ID] }
  let w := if p.linkStatus w.calls then w else
    { w with cout := w.cout ++ ["Error linking shader program: "
                                  ++ p.programInfoLog w.calls ++ "\n"] }
  (⟨program_ID⟩, w)

/-- A driver and file system on which every shader file opens and is empty. -/
def emptyFilesDriver : Driver where
  openFile := fun _ => some ""
  compileStatus := fun _ => true
  shaderInfoLog := fun _ => ""
  linkStatus := fun _ => true
  programInfoLog := fun _ => ""

/-- A driver and file system on which no shader file can be opened. -/
def missingFilesDriver : Driver where
  openFile := fun _ => none
  compileStatus := fun _ => true
  shaderInfoLog := fun _ => ""
  linkStatus := fun _ => false
  programInfoLog := fun _ => "no shaders attached"

/-! ## Machine integers and vector reads -/

theorem sizeToInt_le_max (n : Nat) : sizeToInt n ≤ INT_MAX := by
  unfold sizeToInt INT_MAX
  omega

theorem sizeToInt_le_self (n : Nat) : sizeToInt n ≤ (n : Int) := by
  unfold sizeToInt
  omega

theorem sizeToInt_of_le (n : Nat) (h : (n : Int) ≤ INT_MAX) : sizeToInt n = (n : Int) := by
  unfold sizeToInt
  unfold INT_MAX at h
  omega

theorem ok_bind {α β : Type} (a : α) (f : α → Except Fault β) :
    (Except.ok a >>= f) = f a := rfl

theorem error_bind {α β : Type} (e : Fault) (f : α → Except Fault β) :
    (Except.error e >>= f) = Except.error e := rfl

theorem checked_ok (x : Int) (h1 : INT_MIN ≤ x) (h2 : x ≤ INT_MAX) : checked x = .ok x := by
  unfold checked
  rw [if_pos ⟨h1, h2⟩]

theorem readAt_ok (copy : List ℚ) (i : Nat) (h : i < copy.length) :
    readAt copy (i : Int) = .ok copy[i] := by
  unfold readAt
  rw [if_pos (Int.natCast_nonneg i), Int.toNat_natCast, List.getElem?_eq_getElem h]

theorem readAt_neg (copy : List ℚ) (i : Int) (h : i < 0) :
    readAt copy i = .error .outOfBounds := by
  unfold readAt
  rw [if_neg (by omega)]

/-! ## The zero-skipping loop -/

theorem skipZeros_stop (copy : List ℚ) (size : Int) (fuel : Nat) (lowest : Int)
    (h : ¬ lowest < size) : skipZeros copy size (fuel + 1) lowest = .ok lowest := by
  unfold skipZeros
  rw [if_neg h]
  rfl

theorem skipZeros_zero_step (copy : List ℚ) (size : Int) (fuel l : Nat)
    (hlt : (l : Int) < size) (hn : l < copy.length) (hmax : size ≤ INT_MAX)
    (hz : copy[l] = 0) :
    skipZeros copy size (fuel + 1) (l : Int) = skipZeros copy size fuel ((l + 1 : Nat) : Int) := by
  have hc : checked ((l : Int) + 1) = .ok ((l : Int) + 1) :=
    checked_ok _ (by unfold INT_MIN; omega) (by omega)
  rw [skipZeros, if_pos hlt, readAt_ok copy l hn, ok_bind, if_pos hz, hc, ok_bind]
  push_cast
  rfl

theorem skipZeros_nonzero_step (copy : List ℚ) (size : Int) (fuel l : Nat)
    (hlt : (l : Int) < size) (hn : l < copy.length) (hz : copy[l] ≠ 0) :
    skipZeros copy size (fuel + 1) (l : Int) = .ok (l : Int) := by
  rw [skipZeros, if_pos hlt, readAt_ok copy l hn, ok_bind, if_neg hz]
  rfl

/-- The loop ends, within the fuel given, at the first index at or after `l` that is either
`size` or holds a nonzero sample. -/
theorem skipZeros_spec (copy : List ℚ) (size : Int) (hsize : size ≤ (copy.length : Int))
    (hmax : size ≤ INT_MAX) :
    ∀ (fuel l : Nat), (l : Int) ≤ size → (size - l).toNat < fuel →
      (∀ j, j < l → copy[j]? = some 0) →
      ∃ r : Nat, skipZeros copy size fuel (l : Int) = .ok (r : Int) ∧ l ≤ r ∧ (r : Int) ≤ size ∧
        (∀ j, j < r → copy[j]? = some 0) ∧
        ((r : Int) < size → ∃ v, copy[r]? = some v ∧ v ≠ 0) := by
  intro fuel
  induction fuel with
  | zero => intro l _ h; omega
  | succ fuel ih =>
    intro l hl hfuel hzero
    by_cases hlt : (l : Int) < size
    · have hn : l < copy.length := by omega
      by_cases hz : copy[l] = 0
      · rw [skipZeros_zero_step copy size fuel l hlt hn hmax hz]
        have hzero2 : ∀ j, j < l + 1 → copy[j]? = some 0 := by
          intro j hj
          by_cases hjl : j < l
          · exact hzero j hjl
          · have : j = l := by omega
            subst this
            rw [List.getElem?_eq_getElem hn, hz]
        obtain ⟨r, hr, hlr, hrs, hrz, hrn⟩ :=
          ih (l + 1) (by push_cast; omega) (by push_cast; omega) hzero2
        exact ⟨r, hr, by omega, hrs, hrz, hrn⟩
      · rw [skipZeros_nonzero_step copy size fuel l hlt hn hz]
        exact ⟨l, rfl, le_refl l, hl, hzero,
          fun _ => ⟨copy[l], List.getElem?_eq_getElem hn, hz⟩⟩
    · rw [skipZeros_stop copy size fuel l hlt]
      exact ⟨l, rfl, le_refl l, hl, hzero, fun h => absurd h hlt⟩

/-- With the fuel `findRanges` gives it, the loop never runs out of fuel. -/
theorem skipZeros_total (copy : List ℚ) :
    ∃ r : Int, skipZeros copy (sizeToInt copy.length) (copy.length + 1) 0 = .ok r := by
  by_cases hpos : (0 : Int) < sizeToInt copy.length
  · have hle := sizeToInt_le_self copy.length
    obtain ⟨r, hr, _⟩ := skipZeros_spec copy (sizeToInt copy.length) hle
      (sizeToInt_le_max _) (copy.length + 1) 0 (by simpa using hpos.le) (by simp; omega)
      (fun j hj => absurd hj (Nat.not_lt_zero j))
    exact ⟨r, by simpa using hr⟩
  · exact ⟨0, skipZeros_stop copy _ copy.length 0 hpos⟩

/-! ## The sorted copy -/

theorem sortedCopy_length (data : List ℚ) : (sortedCopy data).length = data.length :=
  List.length_insertionSort _ data

theorem sortedCopy_perm (data : List ℚ) : (sortedCopy data).Perm data :=
  List.perm_insertionSort _ data

theorem mem_sortedCopy (data : List ℚ) (x : ℚ) : x ∈ sortedCopy data ↔ x ∈ data :=
  (sortedCopy_perm data).mem_iff

theorem sortedCopy_sorted (data : List ℚ) : List.Sorted (· ≤ ·) (sortedCopy data) :=
  List.sorted_insertionSort _ data

theorem sortedCopy_mono (data : List ℚ) (i j : Nat) (hij : i ≤ j)
    (hj : j < (sortedCopy data).length) :
    (sortedCopy data)[i] ≤ (sortedCopy data)[j] := by
  rcases Nat.eq_or_lt_of_le hij with h | h
  · subst h
    exact le_refl _
  · exact (List.pairwise_iff_getElem.mp (sortedCopy_sorted data)) i j (by omega) hj h

/-- Any procedure that returns a sorted permutation of the samples returns `sortedCopy`. -/
theorem sortedCopy_unique (data out : List ℚ) (hperm : out.Perm data)
    (hsorted : List.Sorted (· ≤ ·) out) : out = sortedCopy data :=
  List.eq_of_perm_of_sorted (hperm.trans (sortedCopy_perm data).symm) hsorted
    (sortedCopy_sorted data)

/-! ## All-zero input -/

theorem findRanges_of_skip_ge (data : List ℚ) (r : Int)
    (hskip : skipZeros (sortedCopy data) (sizeToInt (sortedCopy data).length)
      ((sortedCopy data).length + 1) 0 = .ok r)
    (hge : r ≥ sizeToInt (sortedCopy data).length) :
    findRanges data = .ok ⟨0, 0, 0, 1⟩ := by
  unfold findRanges
  simp only []
  rw [hskip, ok_bind, if_pos hge]
  rfl

theorem findRanges_all_zero_aux (data : List ℚ) (h : ∀ x ∈ data, x = 0) :
    findRanges data = .ok ⟨0, 0, 0, 1⟩ := by
  by_cases hpos : (0 : Int) < sizeToInt (sortedCopy data).length
  · have hle := sizeToInt_le_self (sortedCopy data).length
    obtain ⟨r, hr, _, hrs, _, hrn⟩ := skipZeros_spec (sortedCopy data)
      (sizeToInt (sortedCopy data).length) hle
      (sizeToInt_le_max _) ((sortedCopy data).length + 1) 0 (by simpa using hpos.le)
      (by simp; omega) (fun j hj => absurd hj (Nat.not_lt_zero j))
    have hge : (r : Int) ≥ sizeToInt (sortedCopy data).length := by
      by_contra hlt
      obtain ⟨v, hv, hv0⟩ := hrn (by omega)
      have hmem : v ∈ sortedCopy data := List.getElem?_mem hv
      exact hv0 (h v ((mem_sortedCopy data v).mp hmem))
    exact findRanges_of_skip_ge data r (by simpa using hr) hge
  · exact findRanges_of_skip_ge data 0 (skipZeros_stop _ _ _ 0 hpos) (by omega)

/-! ## The first nonzero sample -/

theorem firstNonzero_le (s : List ℚ) : firstNonzero s ≤ s.length :=
  List.findIdx_le_length _

theorem firstNonzero_lt_iff (s : List ℚ) : firstNonzero s < s.length ↔ ∃ x ∈ s, x ≠ 0 := by
  unfold firstNonzero
  rw [List.findIdx_lt_length]
  simp

theorem firstNonzero_ne (s : List ℚ) (h : firstNonzero s < s.length) :
    s[firstNonzero s] ≠ 0 := by
  have hp := @List.findIdx_getElem _ (fun v => decide (v ≠ 0)) s h
  simpa [firstNonzero] using hp

theorem firstNonzero_before (s : List ℚ) (j : Nat) (hj : j < firstNonzero s)
    (hjs : j < s.length) : s[j] = 0 := by
  have hp := @List.not_of_lt_findIdx _ (fun v => decide (v ≠ 0)) s j hj
  simpa using hp

/-- When the size fits an `int`, the loop of `findRanges` stops at the first nonzero sample. -/
theorem skipZeros_eq_firstNonzero (copy : List ℚ) (hn : (copy.length : Int) ≤ INT_MAX) :
    skipZeros copy (copy.length : Int) (copy.length + 1) 0
      = .ok ((firstNonzero copy : Nat) : Int) := by
  obtain ⟨r, hr, _, hrs, hrz, hrn⟩ := skipZeros_spec copy (copy.length : Int) (le_refl _) hn
    (copy.length + 1) 0 (by simp) (by simp) (fun j hj => absurd hj (Nat.not_lt_zero j))
  have hrs2 : r ≤ copy.length := by exact_mod_cast hrs
  have heq : firstNonzero copy = r := by
    rcases Nat.eq_or_lt_of_le hrs2 with hlen | hlt
    · rw [hlen]
      unfold firstNonzero
      rw [List.findIdx_eq_length]
      intro x hx
      obtain ⟨j, hj, hjx⟩ := List.mem_iff_getElem.mp hx
      have h0 := hrz j (by omega)
      rw [List.getElem?_eq_getElem hj] at h0
      have hx0 : x = 0 := by rw [← hjx]; exact Option.some.inj h0
      simp [hx0]
    · unfold firstNonzero
      rw [List.findIdx_eq hlt]
      obtain ⟨v, hv, hv0⟩ := hrn (by exact_mod_cast hlt)
      rw [List.getElem?_eq_getElem hlt] at hv
      have hv2 : copy[r] = v := Option.some.inj hv
      refine ⟨by simp [hv2, hv0], ?_⟩
      intro j hj
      have h0 := hrz j hj
      rw [List.getElem?_eq_getElem (by omega)] at h0
      have hj0 : copy[j] = 0 := Option.some.inj h0
      simp [hj0]
  rw [heq]
  simpa using hr

/-! ## The index arithmetic -/

theorem quantileIndex_ok (lowest length num den : Int) (h0 : 0 ≤ lowest) (hL : 0 ≤ length)
    (hnum : 0 ≤ num) (hden : 0 < den) (hmul : length * num ≤ INT_MAX)
    (hsum : lowest + length * num / den ≤ INT_MAX) :
    quantileIndex lowest length num den = .ok (lowest + length * num / den - 1) := by
  have hprod : 0 ≤ length * num := mul_nonneg hL hnum
  have hquot : 0 ≤ length * num / den := Int.ediv_nonneg hprod hden.le
  have hmin : INT_MIN ≤ -1 := by unfold INT_MIN; omega
  unfold quantileIndex
  rw [checked_ok _ (by omega) hmul, ok_bind, Int.tdiv_eq_ediv hprod hden.le,
    checked_ok _ (by omega) hsum, ok_bind, checked_ok _ (by omega) (by omega)]

/-- The interior index for the fraction `3/4`, as a position in the sorted copy. -/
theorem quantileIndex_three_quarters (r n : Nat) (hr : r < n) (hn : (n : Int) ≤ INT_MAX)
    (hL : 7 * ((n : Int) - r) ≤ INT_MAX) (hpos : 1 ≤ r + (n - r) * 3 / 4) :
    quantileIndex (r : Int) ((n : Int) - r) 3 4
      = .ok ((r + (n - r) * 3 / 4 - 1 : Nat) : Int) := by
  unfold INT_MAX at hn hL
  rw [quantileIndex_ok _ _ 3 4 (by omega) (by omega) (by omega) (by omega)
    (by unfold INT_MAX; omega) (by unfold INT_MAX; omega)]
  congr 1
  omega

/-- The interior index for the fraction `7/8`, as a position in the sorted copy. -/
theorem quantileIndex_seven_eighths (r n : Nat) (hr : r < n) (hn : (n : Int) ≤ INT_MAX)
    (hL : 7 * ((n : Int) - r) ≤ INT_MAX) (hpos : 1 ≤ r + (n - r) * 7 / 8) :
    quantileIndex (r : Int) ((n : Int) - r) 7 8
      = .ok ((r + (n - r) * 7 / 8 - 1 : Nat) : Int) := by
  unfold INT_MAX at hn hL
  rw [quantileIndex_ok _ _ 7 8 (by omega) (by omega) (by omega) (by omega)
    (by unfold INT_MAX; omega) (by unfold INT_MAX; omega)]
  congr 1
  omega

/-! ## The value `findRanges` returns -/

/-- When the size and `length * 7` fit an `int` and the array has at least two samples, one
of them nonzero, `findRanges` returns the four samples of the sorted copy at `lowest`,
`lowest + length * 3 / 4 - 1`, `lowest + length * 7 / 8 - 1` and `size - 1`. -/
theorem findRanges_eval (data : List ℚ) (hn : (data.length : Int) ≤ INT_MAX)
    (hr : firstNonzero (sortedCopy data) < data.length)
    (hL : 7 * ((data.length : Int) - firstNonzero (sortedCopy data)) ≤ INT_MAX)
    (h1 : 1 ≤ firstNonzero (sortedCopy data)
      + (data.length - firstNonzero (sortedCopy data)) * 3 / 4) :
    ∃ (h0 : firstNonzero (sortedCopy data) < (sortedCopy data).length)
      (h3 : firstNonzero (sortedCopy data)
        + (data.length - firstNonzero (sortedCopy data)) * 3 / 4 - 1 < (sortedCopy data).length)
      (h7 : firstNonzero (sortedCopy data)
        + (data.length - firstNonzero (sortedCopy data)) * 7 / 8 - 1 < (sortedCopy data).length)
      (hlast : data.length - 1 < (sortedCopy data).length),
      findRanges data = .ok
        ⟨(sortedCopy data)[firstNonzero (sortedCopy data)],
         (sortedCopy data)[firstNonzero (sortedCopy data)
            + (data.length - firstNonzero (sortedCopy data)) * 3 / 4 - 1],
         (sortedCopy data)[firstNonzero (sortedCopy data)
            + (data.length - firstNonzero (sortedCopy data)) * 7 / 8 - 1],
         (sortedCopy data)[data.length - 1]⟩ := by
  have hlen := sortedCopy_length data
  generalize hcopy : sortedCopy data = copy at *
  generalize hrdef : firstNonzero copy = r at *
  generalize hndef : data.length = n at *
  have hskip := skipZeros_eq_firstNonzero copy (by rw [hlen]; exact hn)
  rw [hrdef, hlen] at hskip
  have h0 : r < copy.length := by omega
  have h3 : r + (n - r) * 3 / 4 - 1 < copy.length := by omega
  have h7 : r + (n - r) * 7 / 8 - 1 < copy.length := by omega
  have hlast : n - 1 < copy.length := by omega
  refine ⟨h0, h3, h7, hlast, ?_⟩
  have hmin : INT_MIN ≤ 0 := by unfold INT_MIN; omega
  have hq1 := quantileIndex_three_quarters r n hr hn hL h1
  have hq2 := quantileIndex_seven_eighths r n hr hn hL (by omega)
  have hlastcast : (n : Int) - 1 = ((n - 1 : Nat) : Int) := by omega
  unfold findRanges
  simp only []
  rw [hcopy, hlen, sizeToInt_of_le n hn, hskip, ok_bind,
    if_neg (by omega), checked_ok _ (by omega) (by omega), ok_bind,
    readAt_ok copy r h0, ok_bind, hq1, ok_bind, readAt_ok copy _ h3, ok_bind,
    hq2, ok_bind, readAt_ok copy _ h7, ok_bind,
    checked_ok _ (by omega) (by omega), ok_bind, hlastcast, readAt_ok copy _ hlast, ok_bind]
  rfl

/-! ## The specification's formula -/

theorem floor_scaled (length num den : Nat) :
    ⌊(length : ℚ) * (num : ℚ) / (den : ℚ)⌋ = ((length * num / den : Nat) : Int) := by
  have h : (length : ℚ) * (num : ℚ) / (den : ℚ) = (((length * num : Nat) : Int) : ℚ) / (den : ℚ) := by
    push_cast
    ring
  rw [h, Rat.floor_intCast_div_natCast]
  norm_cast

theorem valueAt_ok (s : List ℚ) (i : Nat) (h : i < s.length) :
    valueAt s (i : Int) = some s[i] := by
  unfold valueAt
  rw [if_pos (Int.natCast_nonneg i), Int.toNat_natCast, List.getElem?_eq_getElem h]

theorem specRanges_eval (data : List ℚ)
    (hr : firstNonzero (sortedCopy data) < data.length)
    (h1 : 1 ≤ firstNonzero (sortedCopy data)
      + (data.length - firstNonzero (sortedCopy data)) * 3 / 4) :
    ∃ (h0 : firstNonzero (sortedCopy data) < (sortedCopy data).length)
      (h3 : firstNonzero (sortedCopy data)
        + (data.length - firstNonzero (sortedCopy data)) * 3 / 4 - 1 < (sortedCopy data).length)
      (h7 : firstNonzero (sortedCopy data)
        + (data.length - firstNonzero (sortedCopy data)) * 7 / 8 - 1 < (sortedCopy data).length)
      (hlast : data.length - 1 < (sortedCopy data).length),
      specRanges data = some
        ⟨(sortedCopy data)[firstNonzero (sortedCopy data)],
         (sortedCopy data)[firstNonzero (sortedCopy data)
            + (data.length - firstNonzero (sortedCopy data)) * 3 / 4 - 1],
         (sortedCopy data)[firstNonzero (sortedCopy data)
            + (data.length - firstNonzero (sortedCopy data)) * 7 / 8 - 1],
         (sortedCopy data)[data.length - 1]⟩ := by
  have hlen := sortedCopy_length data
  have hex : ∃ x ∈ sortedCopy data, x ≠ 0 :=
    (firstNonzero_lt_iff _).mp (by rw [hlen]; exact hr)
  have hall : ¬ ((sortedCopy data).all (fun v => decide (v = 0)) = true) := by
    rw [List.all_eq_true]
    intro hzero
    obtain ⟨x, hx, hx0⟩ := hex
    exact hx0 (by simpa using hzero x hx)
  generalize hcopy : sortedCopy data = copy at *
  generalize hrdef : firstNonzero copy = r at *
  generalize hndef : data.length = n at *
  have h0 : r < copy.length := by omega
  have h3 : r + (n - r) * 3 / 4 - 1 < copy.length := by omega
  have h7 : r + (n - r) * 7 / 8 - 1 < copy.length := by omega
  have hlast : n - 1 < copy.length := by omega
  refine ⟨h0, h3, h7, hlast, ?_⟩
  have hf3 : ⌊((n - r : Nat) : ℚ) * 3 / 4⌋ = (((n - r) * 3 / 4 : Nat) : Int) := by
    have := floor_scaled (n - r) 3 4
    simpa using this
  have hf7 : ⌊((n - r : Nat) : ℚ) * 7 / 8⌋ = (((n - r) * 7 / 8 : Nat) : Int) := by
    have := floor_scaled (n - r) 7 8
    simpa using this
  have hi3 : (r : Int) + (((n - r) * 3 / 4 : Nat) : Int) - 1
      = ((r + (n - r) * 3 / 4 - 1 : Nat) : Int) := by omega
  have hi7 : (r : Int) + (((n - r) * 7 / 8 : Nat) : Int) - 1
      = ((r + (n - r) * 7 / 8 - 1 : Nat) : Int) := by omega
  have hilast : (n : Int) - 1 = ((n - 1 : Nat) : Int) := by omega
  unfold specRanges
  simp only []
  rw [hcopy, if_neg hall, hrdef, hlen, hf3, hf7, hi3, hi7, hilast,
    valueAt_ok copy r h0, valueAt_ok copy _ h3, valueAt_ok copy _ h7, valueAt_ok copy _ hlast]
  rfl

/-! ## Sample arrays whose size does not fit an `int` -/

theorem findRanges_of_size_nonpos (data : List ℚ) (h : sizeToInt data.length ≤ 0) :
    findRanges data = .ok ⟨0, 0, 0, 1⟩ := by
  have h2 : ¬ (0 : Int) < sizeToInt (sortedCopy data).length := by
    rw [sortedCopy_length]
    omega
  exact findRanges_of_skip_ge data 0 (skipZeros_stop _ _ _ 0 h2) (by omega)

theorem sortedCopy_replicate (n : Nat) (a : ℚ) :
    sortedCopy (List.replicate n a) = List.replicate n a := by
  unfold sortedCopy
  apply List.Sorted.insertionSort_eq
  exact List.pairwise_replicate.mpr (Or.inr (le_refl a))

theorem findRanges_oversized : findRanges oversizedSamples = .ok ⟨0, 0, 0, 1⟩ := by
  apply findRanges_of_size_nonpos
  unfold oversizedSamples
  rw [List.length_replicate]
  decide

theorem mem_oversized : (2 : ℚ) ∈ oversizedSamples := by
  unfold oversizedSamples
  rw [List.mem_replicate]
  exact ⟨by norm_num, rfl⟩

theorem valueAt_replicate (n : Nat) (a : ℚ) (i : Int) (h0 : 0 ≤ i) (h1 : i < (n : Int)) :
    valueAt (List.replicate n a) i = some a := by
  unfold valueAt
  rw [if_pos h0, List.getElem?_replicate, if_pos (by omega)]

theorem oversized_not_all_zero :
    ¬ (oversizedSamples.all (fun v => decide (v = 0)) = true) := by
  rw [List.all_eq_true]
  intro h
  have h2 := h 2 mem_oversized
  revert h2
  decide

theorem firstNonzero_oversized : firstNonzero oversizedSamples = 0 := by
  have hd : decide ((2 : ℚ) ≠ 0) = true := by decide
  unfold firstNonzero oversizedSamples
  rw [show (2147483648 : Nat) = 2147483647 + 1 from rfl, List.replicate_succ,
    List.findIdx_cons, hd, cond_true]

theorem specRanges_oversized : specRanges oversizedSamples = some ⟨2, 2, 2, 2⟩ := by
  have hlen : oversizedSamples.length = 2147483648 := by
    unfold oversizedSamples
    rw [List.length_replicate]
  have hcopy : sortedCopy oversizedSamples = oversizedSamples := by
    unfold oversizedSamples
    exact sortedCopy_replicate _ _
  have hf3 : ⌊((2147483648 - 0 : ℕ) : ℚ) * 3 / 4⌋ = 1610612736 := by
    have h := floor_scaled (2147483648 - 0) 3 4
    simp only [Nat.cast_ofNat] at h
    rw [h]
    decide
  have hf7 : ⌊((2147483648 - 0 : ℕ) : ℚ) * 7 / 8⌋ = 1879048192 := by
    have h := floor_scaled (2147483648 - 0) 7 8
    simp only [Nat.cast_ofNat] at h
    rw [h]
    decide
  unfold specRanges
  simp only []
  rw [hcopy, if_neg oversized_not_all_zero, firstNonzero_oversized, hlen, hf3, hf7]
  unfold oversizedSamples
  rw [valueAt_replicate _ _ _ (by decide) (by decide),
    valueAt_replicate _ _ _ (by decide) (by decide),
    valueAt_replicate _ _ _ (by decide) (by decide),
    valueAt_replicate _ _ _ (by decide) (by decide)]
  rfl

/-- On `306783379` nonzero samples the product `length * 7` leaves the range of `int`. -/
theorem findRanges_overflowing : findRanges overflowingSamples = .error .intOverflow := by
  have hlen : overflowingSamples.length = 306783379 := by
    unfold overflowingSamples
    rw [List.length_replicate]
  have hcopy : sortedCopy overflowingSamples = overflowingSamples := by
    unfold overflowingSamples
    exact sortedCopy_replicate _ _
  have hget : ∀ (i : Nat) (h : i < overflowingSamples.length), overflowingSamples[i] = 1 := by
    intro i h
    unfold overflowingSamples
    exact List.getElem_replicate _ _
  have h0 : 0 < overflowingSamples.length := by rw [hlen]; decide
  have h3 : 230087533 < overflowingSamples.length := by rw [hlen]; decide
  have hsz : sizeToInt 306783379 = 306783379 := by decide
  have hskip : skipZeros overflowingSamples 306783379 (306783379 + 1) 0 = .ok 0 :=
    skipZeros_nonzero_step overflowingSamples 306783379 306783379 0 (by decide) h0
      (by rw [hget 0 h0]; exact one_ne_zero)
  have hr0 : readAt overflowingSamples 0 = .ok 1 := by
    have h := readAt_ok overflowingSamples 0 h0
    rw [hget 0 h0] at h
    exact h
  have hr1 : readAt overflowingSamples 230087533 = .ok 1 := by
    have h := readAt_ok overflowingSamples 230087533 h3
    rw [hget 230087533 h3] at h
    exact h
  have hlength : checked ((306783379 : Int) - 0) = .ok 306783379 := by decide
  have hq1 : quantileIndex 0 306783379 3 4 = .ok 230087533 := by decide
  have hq2 : quantileIndex 0 306783379 7 8 = .error .intOverflow := by decide
  unfold findRanges
  simp only []
  rw [hcopy, hlen, hsz, hskip, ok_bind, if_neg (by decide), hlength, ok_bind, hr0, ok_bind,
    hq1, ok_bind, hr1, ok_bind, hq2, error_bind]

/-! ## Order facts about the sorted copy -/

theorem sortedCopy_getElem_mem (data : List ℚ) (i : Nat) (h : i < (sortedCopy data).length) :
    (sortedCopy data)[i] ∈ data :=
  (mem_sortedCopy data _).mp (List.getElem_mem h)

theorem sortedCopy_last_max (data : List ℚ) (h : data.length - 1 < (sortedCopy data).length)
    (x : ℚ) (hx : x ∈ data) : x ≤ (sortedCopy data)[data.length - 1] := by
  obtain ⟨j, hj, hjx⟩ := List.mem_iff_getElem.mp ((mem_sortedCopy data x).mpr hx)
  rw [← hjx]
  have hlen := sortedCopy_length data
  exact sortedCopy_mono data j (data.length - 1) (by omega) h

theorem sortedCopy_first_min (data : List ℚ)
    (h : firstNonzero (sortedCopy data) < (sortedCopy data).length)
    (x : ℚ) (hx : x ∈ data) (hx0 : x ≠ 0) :
    (sortedCopy data)[firstNonzero (sortedCopy data)] ≤ x := by
  obtain ⟨j, hj, hjx⟩ := List.mem_iff_getElem.mp ((mem_sortedCopy data x).mpr hx)
  rw [← hjx]
  by_cases hlt : j < firstNonzero (sortedCopy data)
  · exact absurd (hjx ▸ firstNonzero_before (sortedCopy data) j hlt hj) hx0
  · exact sortedCopy_mono data _ j (by omega) hj

/-- In a sorted copy of non-negative samples every position from `lowest` on holds a nonzero
sample. -/
theorem sortedCopy_nonzero_from (data : List ℚ) (hnonneg : ∀ x ∈ data, 0 ≤ x)
    (j : Nat) (hj : j < (sortedCopy data).length) (hle : firstNonzero (sortedCopy data) ≤ j) :
    (sortedCopy data)[j] ≠ 0 := by
  have hr : firstNonzero (sortedCopy data) < (sortedCopy data).length := by omega
  have hne := firstNonzero_ne (sortedCopy data) hr
  have hge := hnonneg _ (sortedCopy_getElem_mem data _ hr)
  have hpos : 0 < (sortedCopy data)[firstNonzero (sortedCopy data)] :=
    lt_of_le_of_ne hge (Ne.symm hne)
  have hmono := sortedCopy_mono data _ j hle hj
  exact ne_of_gt (lt_of_lt_of_le hpos hmono)

/-- For non-negative samples the `length` of `findRanges` is the number of nonzero samples. -/
theorem countP_nonzero (data : List ℚ) (hnonneg : ∀ x ∈ data, 0 ≤ x) :
    data.countP (fun v => decide (v ≠ 0)) = data.length - firstNonzero (sortedCopy data) := by
  have hlen := sortedCopy_length data
  have hle := firstNonzero_le (sortedCopy data)
  rw [← (sortedCopy_perm data).countP_eq,
    ← List.take_append_drop (firstNonzero (sortedCopy data)) (sortedCopy data),
    List.countP_append]
  have htake : List.countP (fun v => decide (v ≠ 0))
      (List.take (firstNonzero (sortedCopy data)) (sortedCopy data)) = 0 := by
    rw [List.countP_eq_zero]
    intro a ha
    obtain ⟨i, hi, hia⟩ := List.mem_take_iff_getElem.mp ha
    have hi2 : i < firstNonzero (sortedCopy data) := lt_of_lt_of_le hi (min_le_left _ _)
    have := firstNonzero_before (sortedCopy data) i hi2 (by omega)
    simp [← hia, this]
  have hdrop : List.countP (fun v => decide (v ≠ 0))
      (List.drop (firstNonzero (sortedCopy data)) (sortedCopy data))
      = (List.drop (firstNonzero (sortedCopy data)) (sortedCopy data)).length := by
    rw [List.countP_eq_length]
    intro a ha
    obtain ⟨i, hi, hia⟩ := List.mem_drop_iff_getElem.mp ha
    have := sortedCopy_nonzero_from data hnonneg (firstNonzero (sortedCopy data) + i)
      (by omega) (by omega)
    simp [← hia, this]
  rw [htake, hdrop, List.length_drop, List.take_append_drop, hlen]
  omega

/-- With at least two samples from `lowest` on (and sizes that fit an `int`), the four
breakpoints are ordered. -/
theorem findRanges_ordered (data : List ℚ) (hn : (data.length : Int) ≤ INT_MAX)
    (hL : 7 * ((data.length : Int) - firstNonzero (sortedCopy data)) ≤ INT_MAX)
    (h2 : firstNonzero (sortedCopy data) + 2 ≤ data.length) :
    ∃ v, findRanges data = .ok v ∧ v.Ordered := by
  obtain ⟨h0, h3, h7, hlast, heq⟩ := findRanges_eval data hn (by omega) hL (by omega)
  refine ⟨_, heq, ?_, ?_, ?_⟩
  · exact sortedCopy_mono data _ _ (by omega) h3
  · exact sortedCopy_mono data _ _ (by omega) h7
  · exact sortedCopy_mono data _ _ (by omega) hlast

/-! ## Exactly one sample from `lowest` on -/

theorem getElem_index_congr (l : List ℚ) (i j : Nat) (hi : i < l.length) (hj : j < l.length)
    (h : i = j) : l[i] = l[j] := by
  subst h
  rfl

/-- Every one-element array holding a nonzero sample makes `findRanges` read index `-1`. -/
theorem findRanges_singleton (x : ℚ) (hx : x ≠ 0) :
    findRanges [x] = .error .outOfBounds := by
  have hcopy : sortedCopy [x] = [x] := rfl
  have hskip : skipZeros [x] 1 2 0 = .ok 0 :=
    skipZeros_nonzero_step [x] 1 1 0 (by norm_num) (by simp) (by simpa using hx)
  have hq : quantileIndex 0 1 3 4 = .ok (-1) := by decide
  unfold findRanges
  simp only []
  rw [hcopy]
  have hsz : sizeToInt ([x] : List ℚ).length = 1 := by
    rw [List.length_singleton]
    decide
  rw [hsz, show ([x] : List ℚ).length + 1 = 2 from rfl, hskip, ok_bind, if_neg (by omega),
    show checked ((1 : Int) - 0) = .ok 1 from rfl, ok_bind,
    show readAt [x] 0 = .ok x from rfl, ok_bind, hq, ok_bind,
    readAt_neg [x] (-1) (by omega), error_bind]

/-- When the sorted copy is a run of at least one zero followed by a single nonzero sample
`x`, `findRanges` returns `(x, 0, 0, x)`: both interior breakpoints are a skipped zero. -/
theorem findRanges_one_nonzero_after_zeros (data : List ℚ)
    (hn : (data.length : Int) ≤ INT_MAX)
    (h1 : 1 ≤ firstNonzero (sortedCopy data))
    (hlast : firstNonzero (sortedCopy data) + 1 = data.length) :
    ∃ x, x ≠ 0 ∧ x ∈ data ∧ findRanges data = .ok ⟨x, 0, 0, x⟩ := by
  have hL : 7 * ((data.length : Int) - firstNonzero (sortedCopy data)) ≤ INT_MAX := by
    unfold INT_MAX
    omega
  obtain ⟨h0, h3, h7, hl, heq⟩ := findRanges_eval data hn (by omega) hL (by omega)
  have hprev : firstNonzero (sortedCopy data) - 1 < (sortedCopy data).length := by omega
  have e3 := getElem_index_congr (sortedCopy data) _ _ h3 hprev (by omega)
  have e7 := getElem_index_congr (sortedCopy data) _ _ h7 hprev (by omega)
  have el := getElem_index_congr (sortedCopy data) _ _ hl h0 (by omega)
  have hzero := firstNonzero_before (sortedCopy data) _ (by omega) hprev
  rw [e3, e7, el, hzero] at heq
  exact ⟨_, firstNonzero_ne (sortedCopy data) h0, sortedCopy_getElem_mem data _ h0, heq⟩

/-! ## Claims about the range estimator -/

/-- C1: the ordering `r0 ≤ r1 ≤ r2 ≤ r3` fails on the code. On the samples `[0, 5]` (one
background pixel, one nonzero sample) `findRanges` returns `(5, 0, 0, 5)`: `length` is `1`,
both interior indices are `lowest - 1`, and the value read there is the zero that the loop
skipped, so `r0 > r1`. -/
theorem findRanges_single_nonzero_misordered :
    findRanges [0, 5] = .ok ⟨5, 0, 0, 5⟩ ∧ ¬ Vec4.Ordered ⟨5, 0, 0, 5⟩ := by
  decide

/-- C2: the bounds claim fails on the code. On the one-element array `[5]` the loop leaves
`lowest = 0` and `length = 1`, both interior index expressions evaluate to `-1`, and
`findRanges` reads the sorted copy out of bounds. -/
theorem findRanges_single_sample_out_of_bounds :
    quantileIndex 0 1 3 4 = .ok (-1) ∧ quantileIndex 0 1 7 8 = .ok (-1) ∧
      findRanges [5] = .error .outOfBounds := by
  decide

/-- C3: for every sample array, of any length, whose elements are all zero, `findRanges`
returns exactly `(0, 0, 0, 1)`. -/
theorem findRanges_all_zero (data : List ℚ) (h : ∀ x ∈ data, x = 0) :
    findRanges data = .ok ⟨0, 0, 0, 1⟩ :=
  findRanges_all_zero_aux data h

theorem findRanges_all_zero_witness :
    (∀ x ∈ ([0, 0, 0] : List ℚ), x = 0) ∧ findRanges [0, 0, 0] = .ok ⟨0, 0, 0, 1⟩ :=
  ⟨by decide, findRanges_all_zero [0, 0, 0] (by decide)⟩

/-- C4, as stated, fails at three inputs. On `[5]` the formula asks for the value at index
`-1`: the specification's tuple does not exist and the code reads out of bounds. On an array
of `2^31` samples equal to `2` the formula gives `(2, 2, 2, 2)` while the code, whose
`int size` has wrapped to a negative number, returns `(0, 0, 0, 1)`. On `306783379` samples
equal to `1` the product `length * 7` overflows `int` and no tuple is returned. -/
theorem findRanges_formula_counterexample :
    (findRanges [5] = .error .outOfBounds ∧ specRanges [5] = none) ∧
      ((∃ x ∈ oversizedSamples, x ≠ 0) ∧
        findRanges oversizedSamples = .ok ⟨0, 0, 0, 1⟩ ∧
        specRanges oversizedSamples = some ⟨2, 2, 2, 2⟩) ∧
      findRanges overflowingSamples = .error .intOverflow :=
  ⟨⟨by decide, by decide!⟩,
    ⟨⟨2, mem_oversized, by norm_num⟩, findRanges_oversized, specRanges_oversized⟩,
    findRanges_overflowing⟩

/-- C4, amended: for every sample array (in any order) of at least two samples, at least one
of them nonzero, whose size fits a 32-bit `int` and whose `length * 7` does not overflow it,
`findRanges` returns the tuple of the specification's formula `(s[lowest],
s[lowest + floor(length*3/4) - 1], s[lowest + floor(length*7/8) - 1], s[size - 1])`; and on
`[0,0,1,2,3,4,5,6,7,8]` it returns `(1, 6, 7, 8)`. -/
theorem findRanges_refines_formula (data : List ℚ) (hnz : ∃ x ∈ data, x ≠ 0)
    (h2 : 2 ≤ data.length) (hn : (data.length : Int) ≤ INT_MAX)
    (hL : 7 * ((data.length : Int) - firstNonzero (sortedCopy data)) ≤ INT_MAX) :
    (∃ v, findRanges data = .ok v ∧ specRanges data = some v) ∧
      findRanges [0, 0, 1, 2, 3, 4, 5, 6, 7, 8] = .ok ⟨1, 6, 7, 8⟩ := by
  have hlen := sortedCopy_length data
  have hr : firstNonzero (sortedCopy data) < data.length := by
    rw [← hlen, firstNonzero_lt_iff]
    obtain ⟨x, hx, hx0⟩ := hnz
    exact ⟨x, (mem_sortedCopy data x).mpr hx, hx0⟩
  have h1 : 1 ≤ firstNonzero (sortedCopy data)
      + (data.length - firstNonzero (sortedCopy data)) * 3 / 4 := by omega
  obtain ⟨_, _, _, _, hcode⟩ := findRanges_eval data hn hr hL h1
  obtain ⟨_, _, _, _, hspec⟩ := specRanges_eval data hr h1
  exact ⟨⟨_, hcode, hspec⟩, by decide⟩

theorem findRanges_refines_formula_witness :
    ((∃ x ∈ ([7, 0, 3, 8, 1, 0, 2, 4, 6, 5] : List ℚ), x ≠ 0) ∧
      2 ≤ ([7, 0, 3, 8, 1, 0, 2, 4, 6, 5] : List ℚ).length ∧
      (([7, 0, 3, 8, 1, 0, 2, 4, 6, 5] : List ℚ).length : Int) ≤ INT_MAX ∧
      7 * ((([7, 0, 3, 8, 1, 0, 2, 4, 6, 5] : List ℚ).length : Int)
        - firstNonzero (sortedCopy [7, 0, 3, 8, 1, 0, 2, 4, 6, 5])) ≤ INT_MAX) ∧
    ((∃ v, findRanges [7, 0, 3, 8, 1, 0, 2, 4, 6, 5] = .ok v ∧
        specRanges [7, 0, 3, 8, 1, 0, 2, 4, 6, 5] = some v) ∧
      findRanges [0, 0, 1, 2, 3, 4, 5, 6, 7, 8] = .ok ⟨1, 6, 7, 8⟩) :=
  ⟨⟨by decide, by decide, by decide, by decide⟩,
    findRanges_refines_formula [7, 0, 3, 8, 1, 0, 2, 4, 6, 5] (by decide) (by decide)
      (by decide) (by decide)⟩

/-- C5, as stated, fails at three inputs. On `[5]` nothing is returned: the code reads index
`-1` before it builds the tuple. On an array of `2^31` samples equal to `2` the code returns
`(0, 0, 0, 1)`: `r3 = 1` is below the sample `2` and `r0 = 0` is not a nonzero sample. On
`306783379` samples equal to `1` the product `length * 7` overflows `int` and no tuple is
returned. -/
theorem findRanges_extremes_counterexample :
    findRanges [5] = .error .outOfBounds ∧
      (∃ v, findRanges oversizedSamples = .ok v ∧
        (∃ x ∈ oversizedSamples, ¬ x ≤ v.w) ∧ v.x = 0) ∧
      findRanges overflowingSamples = .error .intOverflow :=
  ⟨by decide, ⟨⟨0, 0, 0, 1⟩, findRanges_oversized, ⟨2, mem_oversized, by norm_num⟩, rfl⟩,
    findRanges_overflowing⟩

/-- C5, amended: for every sample array of at least two samples, at least one of them
nonzero, whose size fits a 32-bit `int` and whose `length * 7` does not overflow it,
`findRanges` returns a tuple whose `r3` is the maximum of all samples and whose `r0` is the
minimum of the nonzero samples. -/
theorem findRanges_extremes (data : List ℚ) (hnz : ∃ x ∈ data, x ≠ 0)
    (h2 : 2 ≤ data.length) (hn : (data.length : Int) ≤ INT_MAX)
    (hL : 7 * ((data.length : Int) - firstNonzero (sortedCopy data)) ≤ INT_MAX) :
    ∃ v, findRanges data = .ok v ∧
      (v.w ∈ data ∧ ∀ x ∈ data, x ≤ v.w) ∧
      (v.x ∈ data ∧ v.x ≠ 0 ∧ ∀ x ∈ data, x ≠ 0 → v.x ≤ x) := by
  have hlen := sortedCopy_length data
  have hr : firstNonzero (sortedCopy data) < data.length := by
    rw [← hlen, firstNonzero_lt_iff]
    obtain ⟨x, hx, hx0⟩ := hnz
    exact ⟨x, (mem_sortedCopy data x).mpr hx, hx0⟩
  have h1 : 1 ≤ firstNonzero (sortedCopy data)
      + (data.length - firstNonzero (sortedCopy data)) * 3 / 4 := by omega
  obtain ⟨h0, _, _, hlast, hcode⟩ := findRanges_eval data hn hr hL h1
  refine ⟨_, hcode, ⟨?_, ?_⟩, ?_, ?_, ?_⟩
  · exact sortedCopy_getElem_mem data _ hlast
  · exact sortedCopy_last_max data hlast
  · exact sortedCopy_getElem_mem data _ h0
  · exact firstNonzero_ne (sortedCopy data) h0
  · exact sortedCopy_first_min data h0

theorem findRanges_extremes_witness :
    ((∃ x ∈ ([3, 0, -2, 9, 0, 4] : List ℚ), x ≠ 0) ∧
      2 ≤ ([3, 0, -2, 9, 0, 4] : List ℚ).length ∧
      (([3, 0, -2, 9, 0, 4] : List ℚ).length : Int) ≤ INT_MAX ∧
      7 * ((([3, 0, -2, 9, 0, 4] : List ℚ).length : Int)
        - firstNonzero (sortedCopy [3, 0, -2, 9, 0, 4])) ≤ INT_MAX) ∧
    ∃ v, findRanges [3, 0, -2, 9, 0, 4] = .ok v ∧
      (v.w ∈ ([3, 0, -2, 9, 0, 4] : List ℚ) ∧ ∀ x ∈ ([3, 0, -2, 9, 0, 4] : List ℚ), x ≤ v.w) ∧
      (v.x ∈ ([3, 0, -2, 9, 0, 4] : List ℚ) ∧ v.x ≠ 0 ∧
        ∀ x ∈ ([3, 0, -2, 9, 0, 4] : List ℚ), x ≠ 0 → v.x ≤ x) :=
  ⟨⟨by decide, by decide, by decide, by decide⟩,
    findRanges_extremes [3, 0, -2, 9, 0, 4] (by decide) (by decide) (by decide) (by decide)⟩

/-- C9: for every array of non-negative samples whose size fits a 32-bit `int` and whose
`length * 7` does not overflow it: with at least two nonzero values, the indices computed
by `findRanges` satisfy `lowest ≤ lowest + length*3/4 - 1 ≤ lowest + length*7/8 - 1 ≤ size - 1`
and all four returned breakpoints are nonzero samples of the input; with exactly one nonzero
value both interior indices are `lowest - 1`, below the nonzero sub-range. -/
theorem findRanges_interior_indices (data : List ℚ) (hnonneg : ∀ x ∈ data, 0 ≤ x)
    (hn : (data.length : Int) ≤ INT_MAX)
    (hL : 7 * ((data.countP (fun v => decide (v ≠ 0)) : Nat) : Int) ≤ INT_MAX) :
    (2 ≤ data.countP (fun v => decide (v ≠ 0)) →
      ∃ (lowest i1 i2 : Int) (v : Vec4),
        skipZeros (sortedCopy data) (sizeToInt (sortedCopy data).length)
          ((sortedCopy data).length + 1) 0 = .ok lowest ∧
        quantileIndex lowest (sizeToInt (sortedCopy data).length - lowest) 3 4 = .ok i1 ∧
        quantileIndex lowest (sizeToInt (sortedCopy data).length - lowest) 7 8 = .ok i2 ∧
        (lowest ≤ i1 ∧ i1 ≤ i2 ∧ i2 ≤ sizeToInt (sortedCopy data).length - 1) ∧
        findRanges data = .ok v ∧
        (v.x ∈ data ∧ v.x ≠ 0) ∧ (v.y ∈ data ∧ v.y ≠ 0) ∧
        (v.z ∈ data ∧ v.z ≠ 0) ∧ (v.w ∈ data ∧ v.w ≠ 0)) ∧
    (data.countP (fun v => decide (v ≠ 0)) = 1 →
      ∃ lowest : Int,
        skipZeros (sortedCopy data) (sizeToInt (sortedCopy data).length)
          ((sortedCopy data).length + 1) 0 = .ok lowest ∧
        quantileIndex lowest (sizeToInt (sortedCopy data).length - lowest) 3 4
          = .ok (lowest - 1) ∧
        quantileIndex lowest (sizeToInt (sortedCopy data).length - lowest) 7 8
          = .ok (lowest - 1) ∧
        ¬ (lowest ≤ lowest - 1)) := by
  have hlen := sortedCopy_length data
  have hle := firstNonzero_le (sortedCopy data)
  have hcount := countP_nonzero data hnonneg
  have hsize : sizeToInt (sortedCopy data).length = (data.length : Int) := by
    rw [hlen]
    exact sizeToInt_of_le _ hn
  have hskip := skipZeros_eq_firstNonzero (sortedCopy data) (by rw [hlen]; exact hn)
  rw [hlen] at hskip
  rw [hsize, hlen]
  rw [hcount] at hL
  constructor
  · intro h2
    rw [hcount] at h2
    have hr : firstNonzero (sortedCopy data) < data.length := by omega
    have hL2 : 7 * ((data.length : Int) - firstNonzero (sortedCopy data)) ≤ INT_MAX := by
      omega
    have h1 : 1 ≤ firstNonzero (sortedCopy data)
        + (data.length - firstNonzero (sortedCopy data)) * 3 / 4 := by omega
    have h1b : 1 ≤ firstNonzero (sortedCopy data)
        + (data.length - firstNonzero (sortedCopy data)) * 7 / 8 := by omega
    obtain ⟨h0, h3, h7, hlast, hcode⟩ := findRanges_eval data hn hr hL2 h1
    refine ⟨_, _, _, _, hskip, quantileIndex_three_quarters _ _ hr hn hL2 h1,
      quantileIndex_seven_eighths _ _ hr hn hL2 h1b, ⟨by omega, by omega, by omega⟩,
      hcode, ⟨?_, ?_⟩, ⟨?_, ?_⟩, ⟨?_, ?_⟩, ⟨?_, ?_⟩⟩
    · exact sortedCopy_getElem_mem data _ h0
    · exact sortedCopy_nonzero_from data hnonneg _ h0 (le_refl _)
    · exact sortedCopy_getElem_mem data _ h3
    · exact sortedCopy_nonzero_from data hnonneg _ h3 (by omega)
    · exact sortedCopy_getElem_mem data _ h7
    · exact sortedCopy_nonzero_from data hnonneg _ h7 (by omega)
    · exact sortedCopy_getElem_mem data _ hlast
    · exact sortedCopy_nonzero_from data hnonneg _ hlast (by omega)
  · intro h1
    rw [hcount] at h1
    have hone : (data.length : Int) - (firstNonzero (sortedCopy data) : Int) = 1 := by omega
    refine ⟨_, hskip, ?_, ?_, by omega⟩
    · rw [hone, quantileIndex_ok _ _ 3 4 (by omega) (by omega) (by omega) (by omega)
        (by unfold INT_MAX; omega) (by unfold INT_MAX at hn ⊢; omega)]
      congr 1
    · rw [hone, quantileIndex_ok _ _ 7 8 (by omega) (by omega) (by omega) (by omega)
        (by unfold INT_MAX; omega) (by unfold INT_MAX at hn ⊢; omega)]
      congr 1

theorem findRanges_interior_indices_witness :
    ((∀ x ∈ ([0, 0, 1, 2, 3, 4, 5, 6, 7, 8] : List ℚ), 0 ≤ x) ∧
      (([0, 0, 1, 2, 3, 4, 5, 6, 7, 8] : List ℚ).length : Int) ≤ INT_MAX ∧
      7 * ((([0, 0, 1, 2, 3, 4, 5, 6, 7, 8] : List ℚ).countP (fun v => decide (v ≠ 0)) : Nat)
        : Int) ≤ INT_MAX) ∧
    ∃ (lowest i1 i2 : Int) (v : Vec4),
      skipZeros (sortedCopy [0, 0, 1, 2, 3, 4, 5, 6, 7, 8])
        (sizeToInt (sortedCopy [0, 0, 1, 2, 3, 4, 5, 6, 7, 8]).length)
        ((sortedCopy [0, 0, 1, 2, 3, 4, 5, 6, 7, 8]).length + 1) 0 = .ok lowest ∧
      quantileIndex lowest
        (sizeToInt (sortedCopy [0, 0, 1, 2, 3, 4, 5, 6, 7, 8]).length - lowest) 3 4 = .ok i1 ∧
      quantileIndex lowest
        (sizeToInt (sortedCopy [0, 0, 1, 2, 3, 4, 5, 6, 7, 8]).length - lowest) 7 8 = .ok i2 ∧
      (lowest ≤ i1 ∧ i1 ≤ i2 ∧
        i2 ≤ sizeToInt (sortedCopy [0, 0, 1, 2, 3, 4, 5, 6, 7, 8]).length - 1) ∧
      findRanges [0, 0, 1, 2, 3, 4, 5, 6, 7, 8] = .ok v ∧
      (v.x ∈ ([0, 0, 1, 2, 3, 4, 5, 6, 7, 8] : List ℚ) ∧ v.x ≠ 0) ∧
      (v.y ∈ ([0, 0, 1, 2, 3, 4, 5, 6, 7, 8] : List ℚ) ∧ v.y ≠ 0) ∧
      (v.z ∈ ([0, 0, 1, 2, 3, 4, 5, 6, 7, 8] : List ℚ) ∧ v.z ≠ 0) ∧
      (v.w ∈ ([0, 0, 1, 2, 3, 4, 5, 6, 7, 8] : List ℚ) ∧ v.w ≠ 0) :=
  ⟨⟨by decide, by decide, by decide⟩,
    (findRanges_interior_indices [0, 0, 1, 2, 3, 4, 5, 6, 7, 8] (by decide) (by decide)
      (by decide)).1 (by decide)⟩

/-! ## One tick of the input mapper, field by field -/

theorem processInput_zoom (keys : Keys) (app : App) :
    (processInput keys app).camera.zoom =
      if keys.left_control then
        max ((if keys.left_shift then min (app.camera.zoom * (102 / 100)) 1
          else app.camera.zoom) * (98 / 100)) (1 / 100000)
      else if keys.left_shift then min (app.camera.zoom * (102 / 100)) 1
      else app.camera.zoom := by
  obtain ⟨esc, w, s, a, d, shift, ctrl⟩ := keys
  cases esc <;> cases w <;> cases s <;> cases a <;> cases d <;> cases shift <;> cases ctrl <;> rfl

theorem processInput_center_y (keys : Keys) (app : App) :
    (processInput keys app).camera.center_y =
      if keys.s then
        max ((if keys.w then min (app.camera.center_y + moveSpeed app.camera) 1
          else app.camera.center_y) - moveSpeed app.camera) (-1)
      else if keys.w then min (app.camera.center_y + moveSpeed app.camera) 1
      else app.camera.center_y := by
  obtain ⟨esc, w, s, a, d, shift, ctrl⟩ := keys
  cases esc <;> cases w <;> cases s <;> cases a <;> cases d <;> cases shift <;> cases ctrl <;> rfl

theorem processInput_center_x (keys : Keys) (app : App) :
    (processInput keys app).camera.center_x =
      if keys.d then
        min ((if keys.a then max (app.camera.center_x - moveSpeed app.camera) (-1)
          else app.camera.center_x) + moveSpeed app.camera) 1
      else if keys.a then max (app.camera.center_x - moveSpeed app.camera) (-1)
      else app.camera.center_x := by
  obtain ⟨esc, w, s, a, d, shift, ctrl⟩ := keys
  cases esc <;> cases w <;> cases s <;> cases a <;> cases d <;> cases shift <;> cases ctrl <;> rfl

theorem runTicks_nil (app : App) : runTicks [] app = app := rfl

theorem runTicks_cons (keys : Keys) (ticks : List Keys) (app : App) :
    runTicks (keys :: ticks) app = runTicks ticks (processInput keys app) := rfl

/-! ## Zoom bounds -/

theorem zoom_lower_preserved (keys : Keys) (app : App) (h : 1 / 100000 ≤ app.camera.zoom) :
    1 / 100000 ≤ (processInput keys app).camera.zoom := by
  have hmin : (1 : ℚ) / 100000 ≤ min (app.camera.zoom * (102 / 100)) 1 :=
    le_min (by linarith) (by norm_num)
  rw [processInput_zoom]
  split_ifs
  · exact le_max_right _ _
  · exact le_max_right _ _
  · exact hmin
  · exact h

theorem zoom_upper_preserved (keys : Keys) (app : App) (h : app.camera.zoom ≤ 1) :
    (processInput keys app).camera.zoom ≤ 1 := by
  have hmin : min (app.camera.zoom * (102 / 100)) 1 ≤ (1 : ℚ) := min_le_right _ _
  rw [processInput_zoom]
  split_ifs
  · exact max_le (by linarith) (by norm_num)
  · exact max_le (by linarith) (by norm_num)
  · exact hmin
  · exact h

theorem zoom_upper_after_shift (keys : Keys) (app : App) (hshift : keys.left_shift = true) :
    (processInput keys app).camera.zoom ≤ 1 := by
  have hmin : min (app.camera.zoom * (102 / 100)) 1 ≤ (1 : ℚ) := min_le_right _ _
  rw [processInput_zoom, if_pos hshift]
  split_ifs
  · exact max_le (by linarith) (by norm_num)
  · exact hmin

theorem zoomInRange_preserved (keys : Keys) (app : App) (h : ZoomInRange app.camera) :
    ZoomInRange (processInput keys app).camera :=
  ⟨zoom_lower_preserved keys app h.1, zoom_upper_preserved keys app h.2⟩

theorem zoomInRange_runTicks (ticks : List Keys) :
    ∀ app : App, ZoomInRange app.camera → ZoomInRange (runTicks ticks app).camera := by
  induction ticks with
  | nil => intro app h; exact h
  | cons keys rest ih =>
    intro app h
    rw [runTicks_cons]
    exact ih _ (zoomInRange_preserved keys app h)

theorem zoomInRange_after_shift (ticks : List Keys) :
    ∀ app : App, 1 / 100000 ≤ app.camera.zoom → (∃ k ∈ ticks, k.left_shift = true) →
      ZoomInRange (runTicks ticks app).camera := by
  induction ticks with
  | nil =>
    intro app _ h
    obtain ⟨k, hk, _⟩ := h
    exact absurd hk (List.not_mem_nil k)
  | cons keys rest ih =>
    intro app hlow h
    rw [runTicks_cons]
    by_cases hshift : keys.left_shift = true
    · exact zoomInRange_runTicks rest _
        ⟨zoom_lower_preserved keys app hlow, zoom_upper_after_shift keys app hshift⟩
    · apply ih _ (zoom_lower_preserved keys app hlow)
      obtain ⟨k, hk, hks⟩ := h
      rcases List.mem_cons.mp hk with heq | hmem
      · rw [heq] at hks
        exact absurd hks hshift
      · exact ⟨k, hmem, hks⟩

/-! ## Claims about the camera -/

/-- C6, as stated, fails: from the initial camera one tick with only Ctrl pressed gives
`zoom = max(4 * 0.98, 0.00001) = 3.92`, outside `[1e-5, 1.0]`; the initial zoom `4.0` is
itself outside the interval, and only the Shift branch clamps from above. -/
theorem zoom_leaves_range_counterexample :
    (runTicks [{ left_control := true }] initialApp).camera.zoom = 98 / 25 ∧
      ¬ ZoomInRange (runTicks [{ left_control := true }] initialApp).camera := by
  decide!

/-- C6, amended: starting from the initial camera (zoom = 4.0), after every finite sequence
of `processInput` ticks in which Shift is pressed at least once (with any combination of the
other keys in every tick), the camera zoom lies in `[1e-5, 1.0]`. -/
theorem zoom_in_range_once_shift_pressed (ticks : List Keys)
    (h : ∃ k ∈ ticks, k.left_shift = true) :
    ZoomInRange (runTicks ticks initialApp).camera :=
  zoomInRange_after_shift ticks initialApp (by decide!) h

theorem zoom_in_range_once_shift_pressed_witness :
    (∃ k ∈ [({ left_control := true } : Keys), { left_shift := true },
        { left_control := true, w := true }], k.left_shift = true) ∧
      ZoomInRange (runTicks [{ left_control := true }, { left_shift := true },
        { left_control := true, w := true }] initialApp).camera :=
  ⟨⟨{ left_shift := true }, by simp, rfl⟩,
    zoom_in_range_once_shift_pressed _ ⟨{ left_shift := true }, by simp, rfl⟩⟩

/-- C10: the interval `[1e-5, 1.0]` is absorbing for the zoom (from a zoom in the interval,
`processInput` with any set of pressed keys yields a zoom in the interval), and from any
state with `zoom > 0` one tick with Shift pressed and Ctrl not pressed yields `zoom ≤ 1.0`. -/
theorem zoom_interval_absorbing :
    (∀ (keys : Keys) (app : App), ZoomInRange app.camera →
        ZoomInRange (processInput keys app).camera) ∧
      (∀ (keys : Keys) (app : App), 0 < app.camera.zoom → keys.left_shift = true →
        keys.left_control = false → (processInput keys app).camera.zoom ≤ 1) :=
  ⟨zoomInRange_preserved, fun keys app _ hshift _ => zoom_upper_after_shift keys app hshift⟩

/-! ## The camera invariant -/

theorem moveSpeed_pos (camera : CameraState) (h : 0 < camera.zoom) : 0 < moveSpeed camera := by
  unfold moveSpeed
  positivity

theorem zoom_pos_preserved (keys : Keys) (app : App) (h : 0 < app.camera.zoom) :
    0 < (processInput keys app).camera.zoom := by
  have hmin : (0 : ℚ) < min (app.camera.zoom * (102 / 100)) 1 :=
    lt_min (by positivity) (by norm_num)
  rw [processInput_zoom]
  split_ifs
  · exact lt_of_lt_of_le (by norm_num) (le_max_right _ _)
  · exact lt_of_lt_of_le (by norm_num) (le_max_right _ _)
  · exact hmin
  · exact h

theorem center_y_preserved (keys : Keys) (app : App) (hz : 0 < app.camera.zoom)
    (h : -1 ≤ app.camera.center_y ∧ app.camera.center_y ≤ 1) :
    -1 ≤ (processInput keys app).camera.center_y ∧
      (processInput keys app).camera.center_y ≤ 1 := by
  have hs := moveSpeed_pos app.camera hz
  have hup : -1 ≤ min (app.camera.center_y + moveSpeed app.camera) 1 ∧
      min (app.camera.center_y + moveSpeed app.camera) 1 ≤ 1 :=
    ⟨le_min (by linarith [h.1]) (by norm_num), min_le_right _ _⟩
  rw [processInput_center_y]
  split_ifs
  · exact ⟨le_max_right _ _, max_le (by linarith [hup.2]) (by norm_num)⟩
  · exact ⟨le_max_right _ _, max_le (by linarith [h.2]) (by norm_num)⟩
  · exact hup
  · exact h

theorem center_x_preserved (keys : Keys) (app : App) (hz : 0 < app.camera.zoom)
    (h : -1 ≤ app.camera.center_x ∧ app.camera.center_x ≤ 1) :
    -1 ≤ (processInput keys app).camera.center_x ∧
      (processInput keys app).camera.center_x ≤ 1 := by
  have hs := moveSpeed_pos app.camera hz
  have hdown : -1 ≤ max (app.camera.center_x - moveSpeed app.camera) (-1) ∧
      max (app.camera.center_x - moveSpeed app.camera) (-1) ≤ 1 :=
    ⟨le_max_right _ _, max_le (by linarith [h.2]) (by norm_num)⟩
  rw [processInput_center_x]
  split_ifs
  · exact ⟨le_min (by linarith [hdown.1]) (by norm_num), min_le_right _ _⟩
  · exact ⟨le_min (by linarith [h.1]) (by norm_num), min_le_right _ _⟩
  · exact hdown
  · exact h

theorem cameraInvariant_preserved (keys : Keys) (app : App) (h : CameraInvariant app.camera) :
    CameraInvariant (processInput keys app).camera :=
  ⟨zoom_pos_preserved keys app h.1, center_x_preserved keys app h.1 h.2.1,
    center_y_preserved keys app h.1 h.2.2⟩

theorem cameraInvariant_runTicks (ticks : List Keys) :
    ∀ app : App, CameraInvariant app.camera → CameraInvariant (runTicks ticks app).camera := by
  induction ticks with
  | nil => intro app h; exact h
  | cons keys rest ih =>
    intro app h
    rw [runTicks_cons]
    exact ih _ (cameraInvariant_preserved keys app h)

/-- C7: the `CameraState` invariant (`zoom > 0`, `center_x` and `center_y` in `[-1, 1]`) holds
in the initial state `(0, 0, 4.0)`, is preserved by `processInput` for every set of pressed
keys, and so holds after every finite sequence of ticks; `move_speed = 0.005 * zoom` is
positive whenever `zoom` is, which is what lets the one-sided clamps suffice. -/
theorem camera_invariant :
    CameraInvariant initialApp.camera ∧
      (∀ (keys : Keys) (app : App), CameraInvariant app.camera →
        CameraInvariant (processInput keys app).camera) ∧
      (∀ ticks : List Keys, CameraInvariant (runTicks ticks initialApp).camera) ∧
      (∀ camera : CameraState, CameraInvariant camera → 0 < moveSpeed camera) :=
  ⟨by decide!, cameraInvariant_preserved,
    fun ticks => cameraInvariant_runTicks ticks initialApp (by decide!),
    fun camera h => moveSpeed_pos camera h.1⟩

/-! ## Shader loading -/

theorem addShader_of_missing (p : Driver) (program : Nat) (path : String) (ty : ShaderType)
    (w : World) (h : p.openFile path = none) :
    Shader.addShader p program path ty w =
      { w with cout := w.cout ++ ["Failed to open shader file: " ++ path ++ "\n"] } := by
  unfold Shader.addShader Shader.readShaderFile
  rw [h]
  rfl

theorem addShader_of_empty (p : Driver) (program : Nat) (path : String) (ty : ShaderType)
    (w : World) (h : p.openFile path = some "") :
    Shader.addShader p program path ty w = w := by
  unfold Shader.addShader Shader.readShaderFile
  rw [h]
  rfl

/-- C8, as stated, fails for an empty file: when both shader files open and are empty,
`addShader` leaves the world as it found it (no message on `std::cout`, no GL call), and on a
driver that reports a successful link the whole constructor writes nothing to `std::cout`. -/
theorem addShader_empty_file_counterexample :
    Shader.addShader emptyFilesDriver 1 "./shaders/shader.vert" .GL_VERTEX_SHADER {} = {} ∧
      (Shader.Shader emptyFilesDriver "./shaders/shader.vert" "./shaders/shader.frag" {}).2.cout
        = [] := by
  decide

/-- C8, amended: for every shader stage whose source file cannot be opened or is empty,
`Shader::addShader` skips the stage (no shader object is created, compiled or attached: the
GL trace and the object names are unchanged); the message `Failed to open shader file: ...`
is written exactly when the file cannot be opened, and nothing is written for a file that
opens and is empty; the `Shader` constructor completes and yields the program object created
by `glCreateProgram`, whichever of its two stages the file belongs to. -/
theorem addShader_skips_missing_or_empty (p : Driver) (program : Nat) (path other : String)
    (ty : ShaderType) (w : World)
    (h : p.openFile path = none ∨ p.openFile path = some "") :
    ((Shader.addShader p program path ty w).calls = w.calls ∧
        (Shader.addShader p program path ty w).nextName = w.nextName) ∧
      (Shader.addShader p program path ty w).cout =
        (if p.openFile path = none
          then w.cout ++ ["Failed to open shader file: " ++ path ++ "\n"] else w.cout) ∧
      ((Shader.Shader p path other w).1.program_ID = w.nextName ∧
        (Shader.Shader p other path w).1.program_ID = w.nextName) := by
  rcases h with h | h
  · rw [addShader_of_missing p program path ty w h, if_pos h]
    exact ⟨⟨rfl, rfl⟩, rfl, rfl, rfl⟩
  · rw [addShader_of_empty p program path ty w h, if_neg (by rw [h]; exact Option.some_ne_none _)]
    exact ⟨⟨rfl, rfl⟩, rfl, rfl, rfl⟩

theorem addShader_skips_missing_or_empty_witness :
    (missingFilesDriver.openFile "./shaders/shader.vert" = none ∨
        missingFilesDriver.openFile "./shaders/shader.vert" = some "") ∧
      (((Shader.addShader missingFilesDriver 1 "./shaders/shader.vert"
            .GL_VERTEX_SHADER {}).calls = ({} : World).calls ∧
          (Shader.addShader missingFilesDriver 1 "./shaders/shader.vert"
            .GL_VERTEX_SHADER {}).nextName = ({} : World).nextName) ∧
        (Shader.addShader missingFilesDriver 1 "./shaders/shader.vert"
            .GL_VERTEX_SHADER {}).cout =
          (if missingFilesDriver.openFile "./shaders/shader.vert" = none
            then ({} : World).cout ++ ["Failed to open shader file: "
              ++ "./shaders/shader.vert" ++ "\n"] else ({} : World).cout) ∧
        ((Shader.Shader missingFilesDriver "./shaders/shader.vert" "./shaders/shader.frag"
            {}).1.program_ID = ({} : World).nextName ∧
          (Shader.Shader missingFilesDriver "./shaders/shader.frag" "./shaders/shader.vert"
            {}).1.program_ID = ({} : World).nextName)) :=
  ⟨Or.inl rfl, addShader_skips_missing_or_empty missingFilesDriver 1 "./shaders/shader.vert"
    "./shaders/shader.frag" .GL_VERTEX_SHADER {} (Or.inl rfl)⟩

/-! ## Evaluation checks -/

/-- The estimator does not depend on the order of the samples: a shuffled copy of the
specification's example gives the same tuple. -/
theorem findRanges_shuffled_example :
    findRanges [7, 0, 3, 8, 1, 0, 2, 4, 6, 5] = .ok ⟨1, 6, 7, 8⟩ := by
  decide

/-- With a negative sample the loop stops at index `0` and zeros stay inside the range. -/
theorem findRanges_negative_example :
    findRanges [3, 0, -2, 9, 0, 4] = .ok ⟨-2, 3, 4, 9⟩ := by
  decide

/-- The specification's formula on its own example. -/
theorem specRanges_example :
    specRanges [0, 0, 1, 2, 3, 4, 5, 6, 7, 8] = some ⟨1, 6, 7, 8⟩ := by
  decide!

/-- The constructor when neither shader file can be opened: two file messages, the link
message, and a GL trace with no shader object in it. -/
theorem shader_missing_files_trace :
    (Shader.Shader missingFilesDriver "v" "f" {}).2 =
      { cout := ["Failed to open shader file: v\n", "Failed to open shader file: f\n",
          "Error linking shader program: no shaders attached\n"],
        calls := [GLCall.glCreateProgram 1, GLCall.glLinkProgram 1], nextName := 2 } := by
  decide
